import Mathlib

-- Verification development for the pj package: a shallow embedding of its
-- dynamic query registry and per-request dispatch state machine, with
-- theorems settling the specification claims about them.

set_option maxRecDepth 4000

/-- Lookup in an association list modelling a Go map with unique keys;
a missing key yields none. -/
def mapLookup {α : Type} (m : List (String × α)) (k : String) : Option α :=
  match m with
  | [] => none
  | kv :: rest => if kv.1 = k then some kv.2 else mapLookup rest k

/-- Insert or replace a key in an association list modelling a Go map write. -/
def mapInsert {α : Type} (m : List (String × α)) (k : String) (v : α) : List (String × α) :=
  match m with
  | [] => [(k, v)]
  | kv :: rest => if kv.1 = k then (k, v) :: rest else kv :: mapInsert rest k v

/-- Remove a key from an association list modelling a Go map delete. -/
def mapErase {α : Type} (m : List (String × α)) (k : String) : List (String × α) :=
  match m with
  | [] => []
  | kv :: rest => if kv.1 = k then mapErase rest k else kv :: mapErase rest k

/-- The key list of an association list modelling a Go map. -/
def mapKeys {α : Type} (m : List (String × α)) : List String :=
  m.map (fun kv => kv.1)

/-- The character list of a string. -/
def chars (s : String) : List Char := s.data

/-- Models strings.ToUpper for the ASCII method names handled here. -/
def asciiUpper (s : String) : String := String.mk (s.data.map Char.toUpper)

/-- Models strings.ToLower for the ASCII method names handled here. -/
def asciiLower (s : String) : String := String.mk (s.data.map Char.toLower)

/-- Whether needle occurs as a contiguous run inside hay. -/
def containsSub (needle hay : List Char) : Bool :=
  match hay with
  | [] => needle.isEmpty
  | _ :: rest => needle.isPrefixOf hay || containsSub needle rest

/-- The JSON values produced by decoding a backend response, as Go
encoding/json decodes into an empty interface: numbers become float64,
modelled as exact rationals (no claim depends on float rounding). -/
inductive Json where
  | null : Json
  | bool : Bool → Json
  | num : Rat → Json
  | str : String → Json
  | arr : List Json → Json
  | obj : List (String × Json) → Json

/-- JSON insignificant whitespace: space, tab, newline, carriage return. -/
def skipWs : List Char → List Char
  | [] => []
  | c :: rest =>
    if c = ' ' ∨ c = '\t' ∨ c = '\n' ∨ c = '\r' then skipWs rest else c :: rest

/-- Value of one hexadecimal digit. -/
def hexVal (c : Char) : Option Nat :=
  if '0' ≤ c ∧ c ≤ '9' then some (c.toNat - 48)
  else if 'a' ≤ c ∧ c ≤ 'f' then some (c.toNat - 87)
  else if 'A' ≤ c ∧ c ≤ 'F' then some (c.toNat - 55)
  else none

/-- Models the JSON string literal grammar after the opening quote: the
decoded contents and the input remaining after the closing quote. The
accumulator holds the decoded characters in reverse. Unicode escapes decode
to the character of their code point (surrogate pair combination is not
modelled; no claim depends on it). -/
def parseStringBody : List Char → List Char → Option (String × List Char)
  | [], _ => none
  | c :: rest, acc =>
    if c = '"' then some (String.mk acc.reverse, rest)
    else if c = '\\' then
      match rest with
      | [] => none
      | e :: rest2 =>
        if e = '"' then parseStringBody rest2 ('"' :: acc)
        else if e = '\\' then parseStringBody rest2 ('\\' :: acc)
        else if e = '/' then parseStringBody rest2 ('/' :: acc)
        else if e = 'b' then parseStringBody rest2 ('\x08' :: acc)
        else if e = 'f' then parseStringBody rest2 ('\x0c' :: acc)
        else if e = 'n' then parseStringBody rest2 ('\n' :: acc)
        else if e = 'r' then parseStringBody rest2 ('\r' :: acc)
        else if e = 't' then parseStringBody rest2 ('\t' :: acc)
        else if e = 'u' then
          match rest2 with
          | h1 :: h2 :: h3 :: h4 :: rest3 =>
            match hexVal h1, hexVal h2, hexVal h3, hexVal h4 with
            | some a, some b, some c2, some d =>
              parseStringBody rest3 (Char.ofNat (4096 * a + 256 * b + 16 * c2 + d) :: acc)
            | _, _, _, _ => none
          | _ => none
        else none
    else if c.toNat < 32 then none
    else parseStringBody rest (c :: acc)

/-- Leading decimal digits of the input and the rest. -/
def digitsTake : List Char → (List Char × List Char)
  | [] => ([], [])
  | c :: rest =>
    if '0' ≤ c ∧ c ≤ '9' then
      let p := digitsTake rest
      (c :: p.1, p.2)
    else ([], c :: rest)

/-- Numeric value of a digit run. -/
def digitsVal (ds : List Char) : Nat :=
  ds.foldl (fun a c => 10 * a + (c.toNat - 48)) 0

/-- Exact rational value of a parsed JSON number from its sign, integer
part, fraction digits and optional signed exponent. -/
def ratOfParts (neg : Bool) (ip : Nat) (fds : List Char) (ex : Option (Bool × Nat)) : Rat :=
  let mant : Int := Int.ofNat (ip * 10 ^ fds.length + digitsVal fds)
  let mant2 : Int := if neg then -mant else mant
  match ex with
  | none => mkRat mant2 (10 ^ fds.length)
  | some (true, e) => mkRat mant2 (10 ^ fds.length * 10 ^ e)
  | some (false, e) => mkRat (mant2 * Int.ofNat (10 ^ e)) (10 ^ fds.length)

/-- Optional exponent part of the JSON number grammar. -/
def parseExpPart (s : List Char) : Option (Option (Bool × Nat) × List Char) :=
  match s with
  | [] => some (none, [])
  | c :: rest =>
    if c = 'e' ∨ c = 'E' then
      match rest with
      | [] => none
      | c2 :: rest2 =>
        if c2 = '+' then
          match digitsTake rest2 with
          | ([], _) => none
          | (ds, r) => some (some (false, digitsVal ds), r)
        else if c2 = '-' then
          match digitsTake rest2 with
          | ([], _) => none
          | (ds, r) => some (some (true, digitsVal ds), r)
        else
          match digitsTake rest with
          | ([], _) => none
          | (ds, r) => some (some (false, digitsVal ds), r)
    else some (none, s)

/-- Fraction and exponent tail of the JSON number grammar, given the sign
and integer part already read. -/
def parseNumTail (neg : Bool) (ip : Nat) (s : List Char) : Option (Rat × List Char) :=
  match s with
  | [] => some (ratOfParts neg ip [] none, [])
  | c :: rest =>
    if c = '.' then
      match digitsTake rest with
      | ([], _) => none
      | (fds, r) =>
        match parseExpPart r with
        | none => none
        | some (ex, r2) => some (ratOfParts neg ip fds ex, r2)
    else
      match parseExpPart (c :: rest) with
      | none => none
      | some (ex, r2) => some (ratOfParts neg ip [] ex, r2)

/-- Models the JSON number grammar: optional minus sign, then zero or a
nonzero-led digit run, then fraction and exponent. -/
def parseNumber (s : List Char) : Option (Rat × List Char) :=
  match s with
  | [] => none
  | c :: rest0 =>
    let p := if c = '-' then (true, rest0) else (false, c :: rest0)
    match p.2 with
    | [] => none
    | d :: rest =>
      if d = '0' then parseNumTail p.1 0 rest
      else if '1' ≤ d ∧ d ≤ '9' then
        match digitsTake rest with
        | (ds, r) => parseNumTail p.1 (digitsVal (d :: ds)) r
      else none

/-- Parser mode: one value, object members after the opening brace
(non-empty object), or array elements. The accumulators hold what has been
parsed so far. -/
inductive PMode where
  | value : PMode
  | members : List (String × Json) → PMode
  | elems : List Json → PMode

/-- Models the JSON value grammar as decoded by Go encoding/json, as a
fueled parser (the fuel only bounds recursion depth; the top-level entry
points always pass enough). Duplicate object keys keep the last value, as a
Go map write does. -/
def parseJ : Nat → PMode → List Char → Option (Json × List Char)
  | 0, _, _ => none
  | Nat.succ n, PMode.value, s =>
    match skipWs s with
    | [] => none
    | c :: rest =>
      if c = '\x7b' then
        match skipWs rest with
        | [] => none
        | d :: rest2 =>
          if d = '\x7d' then some (Json.obj [], rest2)
          else parseJ n (PMode.members []) (d :: rest2)
      else if c = '[' then
        match skipWs rest with
        | [] => none
        | d :: rest2 =>
          if d = ']' then some (Json.arr [], rest2)
          else parseJ n (PMode.elems []) (d :: rest2)
      else if c = '"' then
        match parseStringBody rest [] with
        | some (sv, r) => some (Json.str sv, r)
        | none => none
      else if c = 't' then
        match rest with
        | 'r' :: 'u' :: 'e' :: r => some (Json.bool true, r)
        | _ => none
      else if c = 'f' then
        match rest with
        | 'a' :: 'l' :: 's' :: 'e' :: r => some (Json.bool false, r)
        | _ => none
      else if c = 'n' then
        match rest with
        | 'u' :: 'l' :: 'l' :: r => some (Json.null, r)
        | _ => none
      else if c = '-' ∨ ('0' ≤ c ∧ c ≤ '9') then
        match parseNumber (c :: rest) with
        | some (q, r) => some (Json.num q, r)
        | none => none
      else none
  | Nat.succ n, PMode.members acc, s =>
    match skipWs s with
    | [] => none
    | c :: rest =>
      if c = '"' then
        match parseStringBody rest [] with
        | none => none
        | some (k, r1) =>
          match skipWs r1 with
          | ':' :: r2 =>
            match parseJ n PMode.value r2 with
            | none => none
            | some (v, r3) =>
              match skipWs r3 with
              | [] => none
              | ',' :: r4 => parseJ n (PMode.members (mapInsert acc k v)) r4
              | d :: r4 =>
                if d = '\x7d' then some (Json.obj (mapInsert acc k v), r4) else none
          | _ => none
      else none
  | Nat.succ n, PMode.elems acc, s =>
    match parseJ n PMode.value s with
    | none => none
    | some (v, r) =>
      match skipWs r with
      | [] => none
      | ',' :: r2 => parseJ n (PMode.elems (v :: acc)) r2
      | d :: r2 => if d = ']' then some (Json.arr (v :: acc).reverse, r2) else none

/-- Models json.Unmarshal of the scanned backend bytes into an empty Go map
from string to interface: the top level must be a JSON object, or null
(which leaves the pre-allocated empty map as it is), followed only by
whitespace. -/
def goUnmarshalMap (b : List Char) : Option (List (String × Json)) :=
  match parseJ (2 * b.length + 8) PMode.value b with
  | some (Json.obj fs, rest) => if (skipWs rest).isEmpty then some fs else none
  | some (Json.null, rest) => if (skipWs rest).isEmpty then some [] else none
  | _ => none

/-- Modelled from the spec: the implementation of the JSON Well-Formedness
Check (function isValidJSON over the scanner copied into json-validate.go)
is not among the source files, only its test file is. Per the spec it
succeeds if and only if the bytes form one complete, structurally valid
JSON value (object, array, string, number, boolean, or null) with no
trailing garbage and no truncation; the error it carries is collapsed to
false here. -/
def isValidJSON (b : List Char) : Bool :=
  match parseJ (2 * b.length + 8) PMode.value b with
  | some (_, rest) => (skipWs rest).isEmpty
  | none => false

/-- Lower-case hexadecimal digit. -/
def hexDigitLower (n : Nat) : Char :=
  if n < 10 then Char.ofNat (48 + n) else Char.ofNat (87 + n)

/-- Models the escaping encoding/json applies to one character of a Go
string (HTML escaping enabled, the json.Marshal default): quote, backslash,
newline, carriage return and tab get two-character escapes, angle brackets,
ampersand and other control characters become unicode escapes, as do the
line and paragraph separator characters. -/
def goEscapeChar (c : Char) : List Char :=
  if c = '"' then ['\\', '"']
  else if c = '\\' then ['\\', '\\']
  else if c = '\n' then ['\\', 'n']
  else if c = '\r' then ['\\', 'r']
  else if c = '\t' then ['\\', 't']
  else if c = '<' ∨ c = '>' ∨ c = '&' ∨ c.toNat < 32 then
    ['\\', 'u', '0', '0', hexDigitLower (c.toNat / 16), hexDigitLower (c.toNat % 16)]
  else if c.toNat = 8232 ∨ c.toNat = 8233 then
    ['\\', 'u', '2', '0', '2', hexDigitLower (c.toNat % 16)]
  else [c]

/-- A Go string rendered as a quoted JSON string literal, as character
list. -/
def goQuoteL (s : String) : List Char :=
  '"' :: s.data.foldr (fun c acc => goEscapeChar c ++ acc) ['"']

/-- Models the encoding/json array writer for a Go string slice: opening
bracket, elements joined by commas in a running loop, closing bracket. -/
def marshalStrListL (xs : List String) : List Char :=
  match xs with
  | [] => ['[', ']']
  | x :: rest =>
    '[' :: ((rest.foldl (fun acc y => acc ++ ',' :: goQuoteL y) (goQuoteL x)) ++ [']'])

/-- Insert one entry into a key-sorted list of query entries. -/
def insortKey (kv : String × List String) : List (String × List String) → List (String × List String)
  | [] => [kv]
  | kv2 :: rest => if kv.1 < kv2.1 then kv :: kv2 :: rest else kv2 :: insortKey kv rest

/-- Sort query entries by key, as the encoding/json map encoder sorts map
keys before writing them. -/
def sortByKey (q : List (String × List String)) : List (String × List String) :=
  match q with
  | [] => []
  | kv :: rest => insortKey kv (sortByKey rest)

/-- Models json.Marshal of url.Values (a Go map from string to string
slice): sort the keys, then write each entry as quoted key, colon, and the
marshalled value slice, joined by commas inside braces. -/
def marshalValuesL (q : List (String × List String)) : List Char :=
  match sortByKey q with
  | [] => ['\x7b', '\x7d']
  | kv :: rest =>
    '\x7b' :: ((rest.foldl
      (fun acc kv2 => acc ++ ',' :: (goQuoteL kv2.1 ++ ':' :: marshalStrListL kv2.2))
      (goQuoteL kv.1 ++ ':' :: marshalStrListL kv.2)) ++ ['\x7d'])

/-- The marshalled URL query as a string. -/
def marshalValues (q : List (String × List String)) : String :=
  String.mk (marshalValuesL q)

/-- Comma-join of rendered pieces. -/
def joinCommaL : List (List Char) → List Char
  | [] => []
  | [x] => x
  | x :: y :: rest => x ++ ',' :: joinCommaL (y :: rest)

/-- Following the spec wording for the GET parameter: one JSON object whose
keys and values exactly mirror the URL query parameters, each key mapping
to the JSON array of its values, entries in the order given. -/
def specValuesJsonL (q : List (String × List String)) : List Char :=
  '\x7b' :: (joinCommaL (q.map
    (fun kv => goQuoteL kv.1 ++ ':' :: ('[' :: (joinCommaL (kv.2.map goQuoteL) ++ [']'])))) ++ ['\x7d'])

/-- The spec-side GET parameter serialization as a string. -/
def specValuesJson (q : List (String × List String)) : String :=
  String.mk (specValuesJsonL q)

/-- An incoming HTTP request as the dispatcher observes it: the method, the
parsed URL query (as url.Values, a map from key to the list of its values),
and the raw request body bytes. Transport-level read errors on the body are
not modelled. -/
structure Request where
  method : String
  query : List (String × List String)
  body : List Char

/-- A pending QueryRow call: the statement text and its single parameter. -/
structure RowRef where
  stmt : String
  param : String
deriving DecidableEq

/-- The handler state of the PJ struct: the method-to-function-name map and
the maximum accepted body size. The Queryer handle and the error tracker
callback are external collaborators and are not carried in the model. -/
structure PJ where
  Map : List (String × String)
  MaxBodySize : Int

/-- Models PJ.getRow. For GET the parameter is the marshalled URL query.
Otherwise the body is read through io.LimitReader capped at MaxBodySize,
which silently truncates anything beyond the cap, and the truncated bytes
must pass the well-formedness check. A missing method in the map yields the
empty function name, as a Go map read does. -/
def getRow (p : PJ) (r : Request) : Except String RowRef :=
  if r.method = "GET" then
    Except.ok ⟨"SELECT " ++ (mapLookup p.Map r.method).getD "" ++ "($1)", marshalValues r.query⟩
  else
    let b := r.body.take p.MaxBodySize.toNat
    if isValidJSON b then
      Except.ok ⟨"SELECT " ++ (mapLookup p.Map r.method).getD "" ++ "($1)", String.mk b⟩
    else Except.error "invalid json"

/-- Models parseStatusCode: the decoded value must be a JSON number (a Go
float64 after Unmarshal), truncated toward zero by the int conversion; any
other value is an error (whose Go text names http_error_code). -/
def parseStatusCode (v : Json) : Except String Int :=
  match v with
  | Json.num q => Except.ok (Int.tdiv q.num (Int.ofNat q.den))
  | _ => Except.error "http_error_code is not a float64"

/-- Models the fmt verb v formatting of a decoded JSON value appearing as a
header value: exact for strings, booleans and null and for integral
numbers; the formatting of non-integral numbers, arrays and objects is
abstracted (no claim depends on it). -/
def goFormatV (v : Json) : String :=
  match v with
  | Json.str s => s
  | Json.bool true => "true"
  | Json.bool false => "false"
  | Json.null => "<nil>"
  | Json.num q => if q.den = 1 then toString q.num else toString q.num ++ "/" ++ toString q.den
  | Json.arr _ => "[...]"
  | Json.obj _ => "map[...]"

/-- Models parseHeaders: the decoded value must be a JSON object; its
values are formatted with the fmt verb v; any other value is an error and
yields a nil header map. -/
def parseHeaders (v : Json) : Except String (List (String × String)) :=
  match v with
  | Json.obj fs => Except.ok (fs.map (fun kv => (kv.1, goFormatV kv.2)))
  | _ => Except.error "http_headers is not a map[string]string"

/-- The state after the steps loop of PJ.ServeHTTP: the status code set so
far (0 when none was set), the scanned backend bytes (empty until the scan
succeeds), the extracted headers, and the first error. -/
structure PipeOut where
  code : Int
  b : List Char
  headers : List (String × String)
  err : Option String
deriving DecidableEq

/-- Step 4 of the loop: extract and remove the reserved header field from
the decoded map; on a type error the header map stays nil. -/
def pipeHeaders (code : Int) (b : List Char) (resp : List (String × Json)) : PipeOut :=
  match mapLookup resp "http_headers" with
  | some c =>
    match parseHeaders c with
    | Except.error e => ⟨code, b, [], some e⟩
    | Except.ok hs => ⟨code, b, hs, none⟩
  | none => ⟨code, b, [], none⟩

/-- Steps 2 to 4 of the loop on the scanned bytes: unmarshal (an internal
error, code 500, on failure), then extract and remove the reserved status
field (which must be a number), then the reserved header field. -/
def pipeDecode (b : List Char) : PipeOut :=
  match goUnmarshalMap b with
  | none => ⟨500, b, [], some "unmarshal: invalid json"⟩
  | some resp =>
    match mapLookup resp "http_status_code" with
    | some c =>
      match parseStatusCode c with
      | Except.error e => ⟨0, b, [], some e⟩
      | Except.ok code => pipeHeaders code b (mapErase resp "http_status_code")
    | none => pipeHeaders 0 b resp

/-- The backend as the dispatcher sees it: QueryRow on a statement and a
parameter followed by the single-column Scan, yielding the scanned bytes or
the first error. -/
abbrev Db := String → String → Except String (List Char)

/-- Models the steps loop of PJ.ServeHTTP: method lookup (code 405 when the
method has no binding), getRow, Scan, then decoding; the first error stops
the loop. -/
def pipeline (db : Db) (p : PJ) (r : Request) : PipeOut :=
  if (mapLookup p.Map r.method).isNone then
    ⟨405, [], [], some "no query found for method"⟩
  else
    match getRow p r with
    | Except.error e => ⟨0, [], [], some e⟩
    | Except.ok row =>
      match db row.stmt row.param with
      | Except.error e => ⟨0, [], [], some e⟩
      | Except.ok b => pipeDecode b

/-- What the handler leaves on the response writer: the headers it set, the
status code it wrote with WriteHeader (none when it never wrote one), and
the body bytes it wrote. -/
structure HttpOut where
  headers : List (String × String)
  status : Option Int
  body : Option (List Char)
deriving DecidableEq

/-- Models Header Set: replace the value of an existing key or append the
pair (the canonicalisation of header names by net/http is an external
transport detail and is not modelled). -/
def headerSet (hs : List (String × String)) (k v : String) : List (String × String) :=
  if (mapLookup hs k).isSome then
    hs.map (fun kv => if kv.1 = k then (k, v) else kv)
  else hs ++ [(k, v)]

/-- Models the tail of PJ.ServeHTTP after the loop: an error falls back to
code 400 when no code was set, success falls back to 200; the extracted
headers are applied; then, only when the scanned bytes are non-empty, the
content type is set, the status code is written and the raw scanned bytes
are written. The error tracker callback is not modelled. -/
def emit (po : PipeOut) : HttpOut :=
  let code : Int :=
    match po.err with
    | some _ => if po.code = 0 then 400 else po.code
    | none => if po.code = 0 then 200 else po.code
  let hs := po.headers.foldl (fun acc kv => headerSet acc kv.1 kv.2) []
  if po.b.isEmpty then ⟨hs, none, none⟩
  else ⟨headerSet hs "Content-Type" "application/json; charset=utf-8", some code, some po.b⟩

/-- Models PJ.ServeHTTP as the composition of the steps loop and the
response emission. -/
def ServeHTTP (db : Db) (p : PJ) (r : Request) : HttpOut :=
  emit (pipeline db p r)

/-- The backend identifier the Definition Installer creates, combining the
function name and the method. -/
def installIdent (meth fname : String) : String :=
  "pj__" ++ fname ++ "__" ++ meth

/-- Models Sql: the rendered CREATE OR REPLACE FUNCTION installation
statement, wrapping the raw definition body inside a plv8 function that
takes one json parameter and returns a stringified json response. -/
def Sql (meth fname : String) (fbody : String) : String :=
  "\nCREATE OR REPLACE FUNCTION " ++ installIdent meth fname ++
    "(params json) RETURNS text AS $function$\n\tif (typeof params != 'object')\n\t\treturn NULL;\n  \n  var response = \x7b\x7d;\n  response[\"http_status_code\"] = 200;\n\tresponse[\"results\"] = [];\n\t" ++
    fbody ++ "\n  return JSON.stringify(response);\n\n$function$ LANGUAGE plv8 IMMUTABLE STRICT;\n"

/-- Models strings.Split on the path separator (slash on the target
platform): maximal separator-free runs, keeping empty segments. -/
def splitSeg : List Char → List Char → List String
  | [], acc => [String.mk acc.reverse]
  | c :: rest, acc =>
    if c = '/' then String.mk acc.reverse :: splitSeg rest []
    else splitSeg rest (c :: acc)

/-- Split a path string on the separator. -/
def splitOnSlash (p : String) : List String := splitSeg p.data []

/-- The five lowercase method segment names splitRelPath accepts. -/
def lowerMeths : List String := ["get", "post", "put", "patch", "delete"]

/-- Models withoutExt: drop everything from the last dot on; a file name
without a dot is kept whole. -/
def withoutExt (file : String) : String :=
  match file.data.reverse.dropWhile (fun c => c != '.') with
  | [] => file
  | _ :: rest => String.mk rest.reverse

/-- Models splitRelPath. checkRelPath returns nil unconditionally (its
pattern check is disabled dead code) and is therefore not modelled. The
path must split into exactly three segments; the middle segment must be a
lowercase method name and is uppercased; the extension is stripped from the
file name. -/
def splitRelPath (p : String) : Except String (String × String × String) :=
  match splitOnSlash p with
  | [mntp, meth, fname] =>
    if lowerMeths.contains meth then
      Except.ok (mntp, asciiUpper meth, withoutExt fname)
    else Except.error ("method " ++ meth ++ " is not allowed")
  | _ => Except.error "invalid path"

/-- The method keys New accepts. -/
def allowedMeths : List String := ["GET", "POST", "PUT", "PATCH", "DELETE"]

/-- Models New: a key of the method map outside the allowed methods makes
it panic (modelled as none); otherwise the handler is returned with the
given map and the default MaxBodySize of 2048 (the db handle and the error
tracker are external and not carried). -/
def New (m : List (String × String)) : Option PJ :=
  if m.all (fun kv => allowedMeths.contains kv.1) then some ⟨m, 2048⟩ else none

/-- The registry state: the mount-path-to-bindings map (Queries) and the
mount-path-to-handler map (Handlers), each handler represented by its
binding map. In Go, whenever both maps hold a mount path, the handler Map
is the very same Go map object as the Queries entry: RegisterHTTPHandlers
and AddQuery create the handler directly from the Queries entry. A write
through either reference is therefore visible through both, and is modelled
below as a simultaneous update of both fields. The RootDir, error tracker
and lock are not carried: file access goes through an explicit oracle and
the operations are modelled at a quiescent point. -/
structure QC where
  Queries : List (String × List (String × String))
  Handlers : List (String × List (String × String))
deriving DecidableEq

/-- A registration call the registry makes on the external muxer. -/
inductive MuxEvent where
  | handle : String → MuxEvent
  | removeHandler : String → MuxEvent
deriving DecidableEq

/-- The outcome of a registry operation: the registry state when the
operation returns, the muxer calls it made, the statements it executed on
the backend, and the error it returned. -/
structure OpResult where
  qc : QC
  mux : List MuxEvent
  execs : List String
  err : Option String
deriving DecidableEq

/-- The filesystem as the registry sees it: reading a definition file
yields its contents or an error. Paths are the root-relative paths (the
join with the root directory is absorbed into the oracle). -/
abbrev FileSys := String → Except String String

/-- The Exec half of the db handle: executing a statement either fails with
an error or succeeds (the result value is never inspected). -/
abbrev ExecDb := String → Option String

/-- The discovery loop of NewQueryCollection over the root-relative glob
results: decompose each path and record its binding, rejecting a duplicate
(mount path, method) pair. -/
def buildQueries : List String → List (String × List (String × String)) → Except String (List (String × List (String × String)))
  | [], acc => Except.ok acc
  | f :: rest, acc =>
    match splitRelPath f with
    | Except.error e => Except.error e
    | Except.ok (mntp, meth, fname) =>
      match mapLookup acc mntp with
      | none => buildQueries rest (mapInsert acc mntp [(meth, fname)])
      | some m =>
        if (mapLookup m meth).isSome then
          Except.error ("more than one query function for " ++ meth ++ " /" ++ mntp)
        else buildQueries rest (mapInsert acc mntp (mapInsert m meth fname))

/-- Models NewQueryCollection on the already-relativised glob results: the
discovered bindings with an empty handler map. -/
def NewQueryCollection (files : List String) : Except String QC :=
  match buildQueries files [] with
  | Except.error e => Except.error e
  | Except.ok queries => Except.ok ⟨queries, []⟩

/-- The flattened (mount path, method, function name) triples EachFile
iterates over (Go map iteration order is unspecified; the binding list
order is used here, which no claim depends on). -/
def eachFileList (queries : List (String × List (String × String))) : List (String × String × String) :=
  queries.foldr (fun mq acc => (mq.2.map (fun mf => (mq.1, mf.1, mf.2))) ++ acc) []

/-- The loop body of RegisterQueryFuncs: read each file and execute its
installation statement; after the first error the error latch makes the
remaining iterations do nothing. Returns the executed statements and the
first error. -/
def regFuncsLoop (fs : FileSys) (ex : ExecDb) : List (String × String × String) → List String → List String × Option String
  | [], acc => (acc.reverse, none)
  | (mntp, meth, fname) :: rest, acc =>
    match fs (mntp ++ "/" ++ asciiLower meth ++ "/" ++ fname ++ ".sql") with
    | Except.error e => (acc.reverse, some e)
    | Except.ok c =>
      let stmt := Sql (asciiLower meth) fname c
      match ex stmt with
      | some e => ((stmt :: acc).reverse, some e)
      | none => regFuncsLoop fs ex rest (stmt :: acc)

/-- Models RegisterQueryFuncs: install every discovered definition,
stopping at the first failure; the registry maps are not modified. -/
def RegisterQueryFuncs (fs : FileSys) (ex : ExecDb) (qc : QC) : List String × Option String :=
  regFuncsLoop fs ex (eachFileList qc.Queries) []

/-- Models RegisterHTTPHandlers: for every mount path store a handler built
from that mount path's binding map (in Go the same map object, see QC) and
register it with the muxer. The MaxBodySize configuration does not affect
the maps and is not carried. -/
def RegisterHTTPHandlers (qc : QC) : QC × List MuxEvent :=
  (⟨qc.Queries, qc.Queries.foldl (fun hs mq => mapInsert hs mq.1 mq.2) qc.Handlers⟩,
   qc.Queries.map (fun mq => MuxEvent.handle mq.1))

/-- Models LoadQueries: discovery, installation of every definition, then
publication of the handlers; each stage aborts on error. -/
def LoadQueries (files : List String) (fs : FileSys) (ex : ExecDb) : Except String (QC × List MuxEvent) :=
  match NewQueryCollection files with
  | Except.error e => Except.error e
  | Except.ok qc =>
    match RegisterQueryFuncs fs ex qc with
    | (_, some e) => Except.error e
    | (_, none) => Except.ok (RegisterHTTPHandlers qc)

/-- Models AddQuery. When the mount path already has bindings the new
method must not be bound yet and a handler must exist; the definition is
installed and the handler map extended in place (in Go the write through
the handler reference also updates the Queries entry, the same map object;
modelled as the simultaneous update of both fields). Otherwise the
definition is installed, the binding map created and a new handler
registered. Every error return leaves the state exactly as received. -/
def AddQuery (fs : FileSys) (ex : ExecDb) (qc : QC) (relpath : String) : OpResult :=
  match splitRelPath relpath with
  | Except.error e => ⟨qc, [], [], some e⟩
  | Except.ok (mntp, meth, fname) =>
    match mapLookup qc.Queries mntp with
    | some m =>
      if (mapLookup m meth).isSome then
        ⟨qc, [], [], some ("query function for " ++ meth ++ " /" ++ mntp ++ " already exists")⟩
      else
        match mapLookup qc.Handlers mntp with
        | none => ⟨qc, [], [], some ("query function for " ++ meth ++ "/" ++ mntp ++ " has no http handler")⟩
        | some pjm =>
          match fs relpath with
          | Except.error e => ⟨qc, [], [], some e⟩
          | Except.ok c =>
            let stmt := Sql meth fname c
            match ex stmt with
            | some e => ⟨qc, [], [stmt], some e⟩
            | none =>
              ⟨⟨mapInsert qc.Queries mntp (mapInsert m meth fname),
                 mapInsert qc.Handlers mntp (mapInsert pjm meth fname)⟩,
               [MuxEvent.handle mntp], [stmt], none⟩
    | none =>
      match fs relpath with
      | Except.error e => ⟨qc, [], [], some e⟩
      | Except.ok c =>
        let stmt := Sql meth fname c
        match ex stmt with
        | some e => ⟨qc, [], [stmt], some e⟩
        | none =>
          ⟨⟨mapInsert qc.Queries mntp [(meth, fname)],
             mapInsert qc.Handlers mntp [(meth, fname)]⟩,
           [MuxEvent.handle mntp], [stmt], none⟩

/-- Models UpdateQuery: handler, binding and function name identity checks,
then re-read the file and re-execute the installation statement. The maps
are never modified. -/
def UpdateQuery (fs : FileSys) (ex : ExecDb) (qc : QC) (relpath : String) : OpResult :=
  match splitRelPath relpath with
  | Except.error e => ⟨qc, [], [], some e⟩
  | Except.ok (mntp, meth, fname) =>
    match mapLookup qc.Handlers mntp with
    | none => ⟨qc, [], [], some ("query function for " ++ meth ++ "/" ++ mntp ++ " has no http handler")⟩
    | some pjm =>
      if (mapLookup pjm meth).isNone then
        ⟨qc, [], [], some ("http.Handler for /" ++ mntp ++ " does not handle " ++ meth)⟩
      else
        match mapLookup qc.Queries mntp with
        | none => ⟨qc, [], [], some ("query for " ++ meth ++ "/" ++ mntp ++ " does not exist")⟩
        | some m =>
          match mapLookup m meth with
          | none => ⟨qc, [], [], some ("query for " ++ meth ++ "/" ++ mntp ++ " does not exist")⟩
          | some qfn =>
            if qfn ≠ fname then
              ⟨qc, [], [], some ("query function for " ++ meth ++ "/" ++ mntp ++ " has not the name " ++ fname)⟩
            else
              match fs relpath with
              | Except.error e => ⟨qc, [], [], some e⟩
              | Except.ok c =>
                let stmt := Sql meth fname c
                match ex stmt with
                | some e => ⟨qc, [], [stmt], some e⟩
                | none => ⟨qc, [], [stmt], none⟩

/-- Models RemoveQuery: the same existence and identity checks as
UpdateQuery, then the drop statement, then the map updates. The handler Map
and the Queries entry are the same Go map object (see QC): the branch on
its size deletes through one reference before the second branch reads its
size through the other, which is modelled by threading the shared map
value (shared1, then shared2) through both branches. -/
def RemoveQuery (ex : ExecDb) (qc : QC) (relpath : String) : OpResult :=
  match splitRelPath relpath with
  | Except.error e => ⟨qc, [], [], some e⟩
  | Except.ok (mntp, meth, fname) =>
    match mapLookup qc.Handlers mntp with
    | none => ⟨qc, [], [], some ("query function for " ++ meth ++ "/" ++ mntp ++ " has no http handler")⟩
    | some pjm =>
      if (mapLookup pjm meth).isNone then
        ⟨qc, [], [], some ("http.Handler for /" ++ mntp ++ " does not handle " ++ meth)⟩
      else
        match mapLookup qc.Queries mntp with
        | none => ⟨qc, [], [], some ("query for " ++ meth ++ "/" ++ mntp ++ " does not exist")⟩
        | some m =>
          match mapLookup m meth with
          | none => ⟨qc, [], [], some ("query for " ++ meth ++ "/" ++ mntp ++ " does not exist")⟩
          | some qfn =>
            if qfn ≠ fname then
              ⟨qc, [], [], some ("query function for " ++ meth ++ "/" ++ mntp ++ " has not the name " ++ fname)⟩
            else
              let stmt := "DROP FUNCTION " ++ fname ++ "(json)"
              match ex stmt with
              | some e => ⟨qc, [], [stmt], some e⟩
              | none =>
                let first :=
                  if m.length = 1 then (mapErase qc.Queries mntp, m)
                  else (mapInsert qc.Queries mntp (mapErase m meth), mapErase m meth)
                if first.2.length = 1 then
                  ⟨⟨first.1, mapErase qc.Handlers mntp⟩, [MuxEvent.removeHandler mntp], [stmt], none⟩
                else
                  let shared2 := mapErase first.2 meth
                  ⟨⟨(if m.length = 1 then first.1 else mapInsert first.1 mntp shared2),
                     mapInsert qc.Handlers mntp shared2⟩,
                   [MuxEvent.handle mntp], [stmt], none⟩

/-- A handler binding GET to the function all_persons, default body size. -/
def pjGetOnly : PJ := ⟨[("GET", "all_persons")], 2048⟩

/-- A plain GET request without query parameters. -/
def reqGet : Request := ⟨"GET", [], []⟩

/-- A handler binding POST to the function f, body size capped at two. -/
def pjPost2 : PJ := ⟨[("POST", "f")], 2⟩

/-- A POST request with a four-byte body whose two-byte prefix is the empty
object. -/
def reqPostOver : Request := ⟨"POST", [], chars "\x7b\x7d[]"⟩

/-- A PATCH request (no binding in the fixtures above). -/
def reqPatch : Request := ⟨"PATCH", [], []⟩

/-- A backend returning a fixed response body for every invocation. -/
def dbConst (s : String) : Db := fun _ _ => Except.ok (chars s)

/-- A backend response carrying the reserved status field and a payload. -/
def respWithStatus : String := "\x7b\"http_status_code\":201,\"results\":[]\x7d"

/-- A backend response whose reserved status field is a string. -/
def respBadStatus : String := "\x7b\"http_status_code\":\"bad\"\x7d"

/-- A filesystem oracle returning a fixed definition body. -/
def fsConst : FileSys := fun _ => Except.ok "select 1;"

/-- An execution oracle that always succeeds. -/
def exOk : ExecDb := fun _ => none

/-- The definition files of a mount path with two bindings. -/
def c6files : List String := ["persons/get/alpha.sql", "persons/post/beta.sql"]

/-- A registry state with one mount path binding only GET. -/
def qcPersons1 : QC :=
  ⟨[("persons", [("GET", "all_persons")])], [("persons", [("GET", "all_persons")])]⟩

/-- A GET request carrying query parameters, one key with two values. -/
def reqGetQ : Request := ⟨"GET", [("b", ["x"]), ("a", ["1", "2"])], []⟩

/-- A DELETE request (no binding in the fixtures above). -/
def reqDelete : Request := ⟨"DELETE", [], []⟩

/-- Decidable equality for Except results, used to evaluate concrete
runs. -/
def exceptDecEqFn {ε α : Type} [DecidableEq ε] [DecidableEq α] : DecidableEq (Except ε α)
  | Except.error a, Except.error b =>
    if h : a = b then isTrue (by rw [h]) else isFalse (fun hh => h (Except.error.inj hh))
  | Except.error _, Except.ok _ => isFalse (fun hh => Except.noConfusion hh)
  | Except.ok _, Except.error _ => isFalse (fun hh => Except.noConfusion hh)
  | Except.ok a, Except.ok b =>
    if h : a = b then isTrue (by rw [h]) else isFalse (fun hh => h (Except.ok.inj hh))

instance {ε α : Type} [DecidableEq ε] [DecidableEq α] : DecidableEq (Except ε α) :=
  exceptDecEqFn

/-- The comma-prefixed join of the later rendered pieces. -/
def tailJoinL : List (List Char) → List Char
  | [] => []
  | x :: rest => (',' :: x) ++ tailJoinL rest

theorem isValidJSON_matches_test_vectors :
    isValidJSON (chars "\x7b\x7d") = true ∧
    isValidJSON (chars "[]") = true ∧
    isValidJSON (chars "[\"\"]") = true ∧
    isValidJSON (chars "\x7b") = false ∧
    isValidJSON (chars "]") = false ∧
    isValidJSON (chars "[\"]") = false := by
  decide

theorem isValidJSON_empty_input : isValidJSON (chars "") = false := by
  decide

/-- C2 counterexample: a successful pipeline whose backend response carries
the reserved status field writes the raw response bytes, in which the
reserved field is still present: the client does see the reserved control
field, contrary to the claim that it is stripped from the body. -/
theorem c2_reserved_field_not_stripped_cx :
    (ServeHTTP (dbConst respWithStatus) pjGetOnly reqGet).status = some 201 ∧
    (ServeHTTP (dbConst respWithStatus) pjGetOnly reqGet).body = some (chars respWithStatus) ∧
    containsSub (chars "http_status_code") (chars respWithStatus) = true := by
  decide



theorem pipeHeaders_bytes (code : Int) (b : List Char) (resp : List (String × Json)) :
    (pipeHeaders code b resp).b = b := by
  unfold pipeHeaders
  split
  · split <;> rfl
  · rfl

theorem pipeDecode_bytes (b : List Char) : (pipeDecode b).b = b := by
  unfold pipeDecode
  split
  · rfl
  · split
    · split
      · rfl
      · exact pipeHeaders_bytes _ b _
    · exact pipeHeaders_bytes 0 b _

theorem pipeline_scan_ok (db : Db) (p : PJ) (r : Request) (row : RowRef) (b : List Char)
    (hm : (mapLookup p.Map r.method).isSome = true)
    (hrow : getRow p r = Except.ok row)
    (hdb : db row.stmt row.param = Except.ok b) :
    pipeline db p r = pipeDecode b := by
  obtain ⟨v, hv⟩ := Option.isSome_iff_exists.mp hm
  simp [pipeline, hv, hrow, hdb]

theorem list_isEmpty_false_of_ne_nil {b : List Char} (hb : b ≠ []) : b.isEmpty = false := by
  cases b with
  | nil => exact absurd rfl hb
  | cons x xs => rfl

/-- C2 (amended): whenever the backend scan succeeds with non-empty bytes,
the body written to the client is exactly those raw bytes; the reserved
fields are removed only from the decoded map, which is never re-serialized,
so they are not stripped from what the client receives. -/
theorem c2_body_is_raw_scanned_bytes (db : Db) (p : PJ) (r : Request) (row : RowRef) (b : List Char)
    (hm : (mapLookup p.Map r.method).isSome = true)
    (hrow : getRow p r = Except.ok row)
    (hdb : db row.stmt row.param = Except.ok b)
    (hb : b ≠ []) :
    (ServeHTTP db p r).body = some b ∧ (ServeHTTP db p r).status.isSome = true := by
  have hp : pipeline db p r = pipeDecode b := pipeline_scan_ok db p r row b hm hrow hdb
  have hbe : (pipeDecode b).b.isEmpty = false := by
    rw [pipeDecode_bytes b]; exact list_isEmpty_false_of_ne_nil hb
  unfold ServeHTTP emit
  rw [hp, hbe]
  simp [pipeDecode_bytes b]

/-- C2 witness at a concrete run. -/
theorem c2_body_is_raw_scanned_bytes_witness :
    (ServeHTTP (dbConst respWithStatus) pjGetOnly reqGet).body = some (chars respWithStatus) ∧
    (ServeHTTP (dbConst respWithStatus) pjGetOnly reqGet).status.isSome = true :=
  c2_body_is_raw_scanned_bytes (dbConst respWithStatus) pjGetOnly reqGet
    ⟨"SELECT all_persons($1)", "\x7b\x7d"⟩ (chars respWithStatus)
    (by decide) (by decide) (by decide) (by decide)

/-- C3 counterexample: a backend response whose reserved status field is a
string (present but non-numeric) yields HTTP 400, the generic client-error
fallback, not the internal-error status 500 the claim requires. -/
theorem c3_nonnumeric_status_gives_400_cx :
    (ServeHTTP (dbConst respBadStatus) pjGetOnly reqGet).status = some 400 ∧
    (ServeHTTP (dbConst respBadStatus) pjGetOnly reqGet).status ≠ some 500 := by
  decide

/-- C3 (amended): only a malformed (non-JSON) backend response defaults to
the internal-error status 500; a present-but-non-numeric status field, and
a present-but-non-object headers field without a status field, leave no
code set and fall back to the generic client-error status 400. -/
theorem c3_status_default_resolution (db : Db) (p : PJ) (r : Request) (row : RowRef) (b : List Char)
    (hm : (mapLookup p.Map r.method).isSome = true)
    (hrow : getRow p r = Except.ok row)
    (hdb : db row.stmt row.param = Except.ok b)
    (hb : b ≠ []) :
    (goUnmarshalMap b = none → (ServeHTTP db p r).status = some 500) ∧
    (∀ resp c, goUnmarshalMap b = some resp →
      mapLookup resp "http_status_code" = some c →
      (∀ q, c ≠ Json.num q) →
      (ServeHTTP db p r).status = some 400) ∧
    (∀ resp h, goUnmarshalMap b = some resp →
      mapLookup resp "http_status_code" = none →
      mapLookup resp "http_headers" = some h →
      (∀ fs2, h ≠ Json.obj fs2) →
      (ServeHTTP db p r).status = some 400) := by
  have hp : pipeline db p r = pipeDecode b := pipeline_scan_ok db p r row b hm hrow hdb
  have hbe : b.isEmpty = false := list_isEmpty_false_of_ne_nil hb
  refine ⟨?_, ?_, ?_⟩
  · intro hu
    simp [ServeHTTP, hp, pipeDecode, hu, emit, hbe]
  · intro resp c hu hsc hnum
    have hpsc : parseStatusCode c = Except.error "http_error_code is not a float64" := by
      cases c with
      | num q => exact absurd rfl (hnum q)
      | null => rfl
      | bool b2 => rfl
      | str s => rfl
      | arr xs => rfl
      | obj fs2 => rfl
    simp [ServeHTTP, hp, pipeDecode, hu, hsc, hpsc, emit, hbe]
  · intro resp h hu hsc hh hobj
    have hph : parseHeaders h = Except.error "http_headers is not a map[string]string" := by
      cases h with
      | obj fs2 => exact absurd rfl (hobj fs2)
      | null => rfl
      | bool b2 => rfl
      | str s => rfl
      | arr xs => rfl
      | num q => rfl
    simp [ServeHTTP, hp, pipeDecode, hu, hsc, pipeHeaders, hh, hph, emit, hbe]

/-- C3 witness at a concrete run with a string status value. -/
theorem c3_status_default_resolution_witness :
    (ServeHTTP (dbConst respBadStatus) pjGetOnly reqGet).status = some 400 :=
  (c3_status_default_resolution (dbConst respBadStatus) pjGetOnly reqGet
      ⟨"SELECT all_persons($1)", "\x7b\x7d"⟩ (chars respBadStatus)
      (by decide) (by decide) (by decide) (by decide)).2.1
    [("http_status_code", Json.str "bad")] (Json.str "bad")
    (by rfl) (by rfl) (fun q hq => Json.noConfusion hq)

/-- C4 counterexample: a request whose method has no binding fails with the
method-not-allowed outcome, yet the handler returns without ever writing a
status code (the scanned bytes are empty, so the final write is skipped
entirely), contradicting the claim that a failure always yields a status
code. -/
theorem c4_failure_without_status_cx :
    (pipeline (dbConst "") pjGetOnly reqPatch).err = some "no query found for method" ∧
    (pipeline (dbConst "") pjGetOnly reqPatch).code = 405 ∧
    ServeHTTP (dbConst "") pjGetOnly reqPatch = ⟨[], none, none⟩ := by
  decide

/-- C4 (amended): the handler writes a status code if and only if the
scanned backend bytes are non-empty; in particular every failure occurring
before a backend response was scanned, the method-not-allowed outcome
included, yields no status line at all (its computed code, such as 405, is
never written), and a successful pipeline with empty scanned bytes also
yields none. -/
theorem c4_status_written_iff_nonempty_bytes (db : Db) (p : PJ) (r : Request) :
    ((ServeHTTP db p r).status.isSome = true ↔ (pipeline db p r).b ≠ []) ∧
    (mapLookup p.Map r.method = none → ServeHTTP db p r = ⟨[], none, none⟩) := by
  constructor
  · unfold ServeHTTP emit
    cases hb : (pipeline db p r).b with
    | nil => simp [hb]
    | cons x xs => simp [hb]
  · intro hnone
    unfold ServeHTTP
    have hp : pipeline db p r = ⟨405, [], [], some "no query found for method"⟩ := by
      unfold pipeline
      rw [hnone]
      rfl
    rw [hp]
    rfl

/-- C4 witness at a concrete unbound method. -/
theorem c4_status_written_iff_nonempty_bytes_witness :
    ServeHTTP (dbConst "") pjGetOnly reqDelete = ⟨[], none, none⟩ :=
  (c4_status_written_iff_nonempty_bytes (dbConst "") pjGetOnly reqDelete).2 (by rfl)

/-- C5 counterexample: a POST body longer than the configured cap does not
fail parameter construction; the body is silently truncated to the cap, and
because the truncated prefix happens to be valid JSON it is passed to the
backend as the parameter, a strict prefix of the larger body. -/
theorem c5_oversized_body_not_rejected_cx :
    pjPost2.MaxBodySize.toNat < reqPostOver.body.length ∧
    getRow pjPost2 reqPostOver = Except.ok ⟨"SELECT f($1)", "\x7b\x7d"⟩ ∧
    chars "\x7b\x7d" ≠ reqPostOver.body ∧
    chars "\x7b\x7d" = reqPostOver.body.take pjPost2.MaxBodySize.toNat := by
  decide

/-- C5 (amended): for a non-GET request the bytes validated and passed on
are always the body truncated at MaxBodySize; an over-cap body is not a
read failure: it fails only when its truncated prefix is not well-formed
JSON, and when the prefix is well formed, that silently truncated prefix
becomes the backend parameter. -/
theorem c5_cap_truncates_silently (p : PJ) (r : Request) (h : ¬ r.method = "GET") :
    getRow p r =
      (if isValidJSON (r.body.take p.MaxBodySize.toNat)
       then Except.ok ⟨"SELECT " ++ (mapLookup p.Map r.method).getD "" ++ "($1)",
              String.mk (r.body.take p.MaxBodySize.toNat)⟩
       else Except.error "invalid json") := by
  unfold getRow
  rw [if_neg h]

/-- C5 witness at the concrete over-cap POST request. -/
theorem c5_cap_truncates_silently_witness :
    getRow pjPost2 reqPostOver =
      (if isValidJSON (reqPostOver.body.take pjPost2.MaxBodySize.toNat)
       then Except.ok ⟨"SELECT " ++ (mapLookup pjPost2.Map reqPostOver.method).getD "" ++ "($1)",
              String.mk (reqPostOver.body.take pjPost2.MaxBodySize.toNat)⟩
       else Except.error "invalid json") :=
  c5_cap_truncates_silently pjPost2 reqPostOver (by decide)

/-- C6: starting from a loaded registry whose only mount path has exactly
two bindings, removing one of them succeeds but deletes the handler while a
binding remains: in Go the handler map and the Queries entry are the same
map object, so the first delete shrinks both and the handler-side size
check sees one remaining binding and tears the handler down. The key sets
of the two maps, equal before the call, differ after it. -/
theorem c6_remove_breaks_key_set_equality :
    ∃ qc0 : QC,
      LoadQueries c6files fsConst exOk = Except.ok (qc0, [MuxEvent.handle "persons"]) ∧
      mapKeys qc0.Queries = mapKeys qc0.Handlers ∧
      (RemoveQuery exOk qc0 "persons/get/alpha.sql").err = none ∧
      mapLookup (RemoveQuery exOk qc0 "persons/get/alpha.sql").qc.Queries "persons" =
        some [("POST", "beta")] ∧
      mapLookup (RemoveQuery exOk qc0 "persons/get/alpha.sql").qc.Handlers "persons" = none := by
  refine ⟨⟨[("persons", [("GET", "alpha"), ("POST", "beta")])],
          [("persons", [("GET", "alpha"), ("POST", "beta")])]⟩, ?_, ?_, ?_, ?_, ?_⟩ <;> decide

theorem addQuery_err_or_unchanged (fs : FileSys) (ex : ExecDb) (qc : QC) (relpath : String) :
    (AddQuery fs ex qc relpath).err = none ∨ (AddQuery fs ex qc relpath).qc = qc := by
  unfold AddQuery
  repeat' split
  all_goals try simp
  all_goals repeat' split
  all_goals simp

theorem updateQuery_unchanged (fs : FileSys) (ex : ExecDb) (qc : QC) (relpath : String) :
    (UpdateQuery fs ex qc relpath).qc = qc := by
  unfold UpdateQuery
  repeat' split
  all_goals try simp
  all_goals repeat' split
  all_goals simp

theorem removeQuery_err_or_unchanged (ex : ExecDb) (qc : QC) (relpath : String) :
    (RemoveQuery ex qc relpath).err = none ∨ (RemoveQuery ex qc relpath).qc = qc := by
  unfold RemoveQuery
  repeat' split
  all_goals try simp
  all_goals repeat' split
  all_goals simp

/-- C7: whenever AddQuery, UpdateQuery or RemoveQuery returns an error, the
registry state it returns is exactly the state it received: every error
return happens before any map update, so no partial in-memory mutation is
committed on failure. -/
theorem c7_error_leaves_maps_unchanged (fs : FileSys) (ex : ExecDb) (qc : QC) (relpath : String) :
    ((AddQuery fs ex qc relpath).err ≠ none → (AddQuery fs ex qc relpath).qc = qc) ∧
    ((UpdateQuery fs ex qc relpath).err ≠ none → (UpdateQuery fs ex qc relpath).qc = qc) ∧
    ((RemoveQuery ex qc relpath).err ≠ none → (RemoveQuery ex qc relpath).qc = qc) := by
  refine ⟨?_, ?_, ?_⟩
  · intro h
    rcases addQuery_err_or_unchanged fs ex qc relpath with h0 | h0
    · exact absurd h0 h
    · exact h0
  · intro _
    exact updateQuery_unchanged fs ex qc relpath
  · intro h
    rcases removeQuery_err_or_unchanged ex qc relpath with h0 | h0
    · exact absurd h0 h
    · exact h0

/-- C7 witness: a path that fails decomposition leaves the registry
untouched in all three operations. -/
theorem c7_error_leaves_maps_unchanged_witness :
    (AddQuery fsConst exOk qcPersons1 "nonsense").qc = qcPersons1 ∧
    (UpdateQuery fsConst exOk qcPersons1 "nonsense").qc = qcPersons1 ∧
    (RemoveQuery exOk qcPersons1 "nonsense").qc = qcPersons1 :=
  ⟨(c7_error_leaves_maps_unchanged fsConst exOk qcPersons1 "nonsense").1 (by decide),
   (c7_error_leaves_maps_unchanged fsConst exOk qcPersons1 "nonsense").2.1 (by decide),
   (c7_error_leaves_maps_unchanged fsConst exOk qcPersons1 "nonsense").2.2 (by decide)⟩

/-- C1: the three backend identifiers the claim requires to coincide do
not: the installation statement creates the combined identifier with the
pj prefix, while the dispatcher invokes, and RemoveQuery drops, the bare
function name (so an installed function is never the one invoked or
dropped). -/
theorem c1_installed_identifier_mismatch :
    containsSub (chars (installIdent "GET" "all_persons"))
      (chars (Sql "GET" "all_persons" "select 1;")) = true ∧
    containsSub (chars "FUNCTION all_persons(")
      (chars (Sql "GET" "all_persons" "select 1;")) = false ∧
    getRow pjGetOnly reqGet = Except.ok ⟨"SELECT all_persons($1)", "\x7b\x7d"⟩ ∧
    (RemoveQuery exOk qcPersons1 "persons/get/all_persons.sql").execs =
      ["DROP FUNCTION all_persons(json)"] ∧
    installIdent "GET" "all_persons" ≠ "all_persons" := by
  decide

/-- C9: splitRelPath succeeds exactly on paths with three segments whose
middle segment is one of the five lowercase method names; on success it
returns the first segment verbatim, the method uppercased and the file
name with its extension stripped, and any other path fails with a
descriptive error. -/
theorem c9_splitRelPath_characterisation (p : String) :
    (∀ mntp meth fname, splitOnSlash p = [mntp, meth, fname] →
      lowerMeths.contains meth = true →
      splitRelPath p = Except.ok (mntp, asciiUpper meth, withoutExt fname)) ∧
    (∀ mntp meth fname, splitOnSlash p = [mntp, meth, fname] →
      lowerMeths.contains meth = false →
      splitRelPath p = Except.error ("method " ++ meth ++ " is not allowed")) ∧
    ((splitOnSlash p).length ≠ 3 → splitRelPath p = Except.error "invalid path") := by
  refine ⟨?_, ?_, ?_⟩
  · intro mntp meth fname h hc
    simp [splitRelPath, h, hc]
    simpa using hc
  · intro mntp meth fname h hc
    simp [splitRelPath, h, hc]
    simpa using hc
  · intro hl
    rcases hs : splitOnSlash p with _ | ⟨a, _ | ⟨b, _ | ⟨c, _ | ⟨d, t⟩⟩⟩⟩
    · simp [splitRelPath, hs]
    · simp [splitRelPath, hs]
    · simp [splitRelPath, hs]
    · exact absurd (by rw [hs]; rfl) hl
    · simp [splitRelPath, hs]

/-- C9 witness at a concrete three-segment path. -/
theorem c9_splitRelPath_characterisation_witness :
    splitRelPath "persons/get/all_persons.sql" =
      Except.ok ("persons", asciiUpper "get", withoutExt "all_persons.sql") :=
  (c9_splitRelPath_characterisation "persons/get/all_persons.sql").1
    "persons" "get" "all_persons.sql" (by decide) (by decide)

/-- C10: New panics (modelled as none) exactly when the method map has a
key outside the five allowed methods; on any map with only allowed keys it
returns a handler carrying that map and the default MaxBodySize 2048. -/
theorem c10_New_characterisation (m : List (String × String)) :
    (New m = none ↔ ∃ kv ∈ m, allowedMeths.contains kv.1 = false) ∧
    (∀ pj, New m = some pj → pj.Map = m ∧ pj.MaxBodySize = 2048) := by
  constructor
  · constructor
    · intro hn
      unfold New at hn
      by_cases h : m.all (fun kv => allowedMeths.contains kv.1) = true
      · rw [if_pos h] at hn
        exact absurd hn (by simp)
      · have h2 := h
        rw [List.all_eq_true] at h2
        push_neg at h2
        obtain ⟨kv, hkv, hf⟩ := h2
        exact ⟨kv, hkv, by simpa using hf⟩
    · rintro ⟨kv, hkv, hf⟩
      unfold New
      rw [if_neg]
      intro hall
      have h3 := List.all_eq_true.mp hall kv hkv
      rw [hf] at h3
      exact Bool.noConfusion h3
  · intro pj hpj
    unfold New at hpj
    by_cases h : m.all (fun kv => allowedMeths.contains kv.1) = true
    · rw [if_pos h] at hpj
      injection hpj with h2
      rw [← h2]
      exact ⟨rfl, rfl⟩
    · rw [if_neg h] at hpj
      exact Option.noConfusion hpj

/-- C10 witness: a map with an unknown method key makes New panic. -/
theorem c10_New_characterisation_witness :
    New [("FOO", "x")] = none :=
  (c10_New_characterisation [("FOO", "x")]).1.mpr
    ⟨("FOO", "x"), by decide, by decide⟩


theorem foldl_comma_join {α : Type} (f : α → List Char) (t : List α) (s : List Char) :
    t.foldl (fun acc y => acc ++ ',' :: f y) s = s ++ tailJoinL (t.map f) := by
  induction t generalizing s with
  | nil => simp [tailJoinL]
  | cons y ys ih =>
    simp only [List.foldl_cons, List.map_cons, tailJoinL]
    rw [ih]
    simp [List.append_assoc]

theorem joinCommaL_cons_eq (x : List Char) (t : List (List Char)) :
    joinCommaL (x :: t) = x ++ tailJoinL t := by
  induction t generalizing x with
  | nil => simp [joinCommaL, tailJoinL]
  | cons y rest ih =>
    unfold joinCommaL tailJoinL
    rw [ih y]
    simp [List.append_assoc]

theorem marshalStrListL_eq (xs : List String) :
    marshalStrListL xs = '[' :: (joinCommaL (xs.map goQuoteL) ++ [']']) := by
  cases xs with
  | nil => rfl
  | cons x rest =>
    show '[' :: ((rest.foldl (fun acc y => acc ++ ',' :: goQuoteL y) (goQuoteL x)) ++ [']']) = _
    rw [foldl_comma_join goQuoteL rest (goQuoteL x)]
    rw [List.map_cons, joinCommaL_cons_eq]

theorem braceFold_eq_spec (l : List (String × List String)) :
    (match l with
     | [] => ['\x7b', '\x7d']
     | kv :: rest =>
       '\x7b' :: ((rest.foldl
         (fun acc kv2 => acc ++ ',' :: (goQuoteL kv2.1 ++ ':' :: marshalStrListL kv2.2))
         (goQuoteL kv.1 ++ ':' :: marshalStrListL kv.2)) ++ ['\x7d'])) =
    specValuesJsonL l := by
  cases l with
  | nil => rfl
  | cons kv rest =>
    show '\x7b' :: ((rest.foldl
        (fun acc kv2 => acc ++ ',' :: (goQuoteL kv2.1 ++ ':' :: marshalStrListL kv2.2))
        (goQuoteL kv.1 ++ ':' :: marshalStrListL kv.2)) ++ ['\x7d']) = _
    rw [foldl_comma_join (fun kv2 => goQuoteL kv2.1 ++ ':' :: marshalStrListL kv2.2) rest
        (goQuoteL kv.1 ++ ':' :: marshalStrListL kv.2)]
    unfold specValuesJsonL
    rw [List.map_cons, joinCommaL_cons_eq]
    simp only [marshalStrListL_eq]

theorem marshalValuesL_eq_spec (q : List (String × List String)) :
    marshalValuesL q = specValuesJsonL (sortByKey q) :=
  braceFold_eq_spec (sortByKey q)

theorem insortKey_perm (kv : String × List String) (l : List (String × List String)) :
    (insortKey kv l).Perm (kv :: l) := by
  induction l with
  | nil => exact List.Perm.refl _
  | cons kv2 rest ih =>
    unfold insortKey
    split
    · exact List.Perm.refl _
    · exact (List.Perm.cons kv2 ih).trans (List.Perm.swap kv kv2 rest)

theorem sortByKey_perm (q : List (String × List String)) :
    (sortByKey q).Perm q := by
  induction q with
  | nil => exact List.Perm.refl _
  | cons kv rest ih =>
    unfold sortByKey
    exact (insortKey_perm kv (sortByKey rest)).trans (List.Perm.cons kv ih)

/-- C8: for every GET request the parameter passed to the bound backend
function is the query parameters serialized as one JSON object in which
each key maps to the JSON array of its values (the spec-side serialization,
applied to the key-sorted entries, which is the serialization rule the Go
map encoder uses); the sorted entries are a permutation of the query
entries, so the object mirrors them exactly. -/
theorem c8_get_param_mirrors_query (p : PJ) (r : Request) (h : r.method = "GET") :
    getRow p r = Except.ok ⟨"SELECT " ++ (mapLookup p.Map r.method).getD "" ++ "($1)",
        specValuesJson (sortByKey r.query)⟩ ∧
    (sortByKey r.query).Perm r.query := by
  constructor
  · unfold getRow
    rw [if_pos h]
    unfold marshalValues specValuesJson
    rw [marshalValuesL_eq_spec]
  · exact sortByKey_perm r.query

/-- C8 witness at a concrete GET request with a repeated key. -/
theorem c8_get_param_mirrors_query_witness :
    getRow pjGetOnly reqGetQ =
      Except.ok ⟨"SELECT " ++ (mapLookup pjGetOnly.Map reqGetQ.method).getD "" ++ "($1)",
        specValuesJson (sortByKey reqGetQ.query)⟩ ∧
    (sortByKey reqGetQ.query).Perm reqGetQ.query :=
  c8_get_param_mirrors_query pjGetOnly reqGetQ rfl
